/-
Verification of the fusionManager pub/sub coordination actor of the
shuttle-tracking service (package api).

The actor owns four pieces of state: per-topic subscriber lists
(`subscriptions`, a Go `map[string][]string`), a client registry
(`clients`, `map[string]*fusionClient`), position tracks (`tracks`,
`map[string][]fusionPosition`) and a `uint64` bus-button counter.  All
mutation goes through the handler functions translated below.

Modelling conventions:
- Go maps become association lists `List (String × β)`; a lookup of a
  missing key yields `none`, matching Go's zero value (`nil` slice /
  `nil` pointer); `(mapLookup m k).getD []` is exactly Go's
  `m[k]` for slice-valued maps.
- `float64` payload fields (latitude, longitude, ...) are never computed
  with, only carried; they are modelled as `Int`.
- `time.Time` is modelled as `Nat`; the Go zero time is `0` and
  `time.Now()` is a parameter `now` (never the zero time in Go).
- A websocket connection handle is modelled as `Option Nat`; `none` is a
  `nil` pointer.  Dereferencing `none` (writing on a missing client) is
  a Go nil-pointer panic, recorded as an `Event.panicNilClient`.
- `json.Marshal` is an arbitrary fallible function passed as a
  parameter `marshal`; a `conn.WriteMessage` outcome is an arbitrary
  predicate `writeOk`.  Broadcast handlers return the list of observable
  events (marshal attempt, write attempts, log lines) next to the
  resulting state.
- `busButtonCount` is `uint64`, so the increment is taken mod 2^64.
-/
import Mathlib

set_option linter.unusedVariables false

namespace ShuttleFusion

/-- A websocket connection handle; `none` models a `nil` pointer. -/
abbrev Conn := Option Nat

/-- Marshalled bytes produced by `json.Marshal`. -/
abbrev Bytes := List Nat

/-- `fusionPosition`: one reported position sample.  `track` is the
client-supplied track identifier, `time` the (server-stamped) receipt
time. -/
structure fusionPosition where
  latitude : Int
  longitude : Int
  speed : Option Int
  heading : Option Int
  track : String
  time : Nat
  deriving DecidableEq, Repr

/-- `fusionBusButton`: payload of a bus-button press. -/
structure fusionBusButton where
  latitude : Int
  longitude : Int
  deriving DecidableEq, Repr

/-- `fusionClient`: one live connection known to the actor. -/
structure fusionClient where
  id : String
  conn : Conn
  lastMessageTime : Nat
  userAgent : String
  deriving DecidableEq, Repr

/-- `fusionMessageEnvelope`: the tagged wire envelope `{type, message}`.
The Go field `Message` is `interface\x7b\x7d`, modelled by a type
parameter. -/
structure fusionMessageEnvelope (α : Type) where
  type : String
  message : α
  deriving DecidableEq, Repr

/-- `serverMessage`: a broadcast request (topic plus payload). -/
structure serverMessage (α : Type) where
  topic : String
  msg : α
  deriving DecidableEq, Repr

/-- `fusionManagerDebug`: the connection-free snapshot built by
`processDebug`. -/
structure fusionManagerDebug where
  clients : List fusionClient
  tracks : List (List fusionPosition)
  busButtonCount : Nat
  deriving DecidableEq, Repr

/-- The actor's internal state (the fields of `fusionManager` owned by
`fm.run`). -/
structure fusionManager where
  subscriptions : List (String × List String)
  clients : List (String × fusionClient)
  tracks : List (String × List fusionPosition)
  busButtonCount : Nat
  deriving DecidableEq, Repr

/-- The state built by `newFusionManager`: empty maps, zero counter. -/
def initialFusionManager : fusionManager :=
  { subscriptions := [], clients := [], tracks := [], busButtonCount := 0 }

/-- Go map read `m[k]`: first entry with the key, if any. -/
def mapLookup {β : Type} : List (String × β) → String → Option β
  | [], _ => none
  | (k', v) :: rest, k => if k' = k then some v else mapLookup rest k

/-- Go map write `m[k] = v`: replace the first entry with the key, or
append a fresh one. -/
def mapUpdate {β : Type} : List (String × β) → String → β → List (String × β)
  | [], k, v => [(k, v)]
  | (k', v') :: rest, k, v =>
      if k' = k then (k, v) :: rest else (k', v') :: mapUpdate rest k v

/-- The splice `subs = append(subs[:i], subs[i+1:]...)` guarded by
`subbedClient == clientID` with a `break`: remove the first occurrence,
keeping the rest in order. -/
def removeFirst (clientID : String) : List String → List String
  | [] => []
  | s :: rest => if s = clientID then rest else s :: removeFirst clientID rest

/-- `fm.subscriptions[topic]` as a list (Go yields the `nil` slice for a
missing topic). -/
def subsOf (fm : fusionManager) (topic : String) : List String :=
  (mapLookup fm.subscriptions topic).getD []

/-- `fm.tracks[track]` as a list. -/
def tracksOf (fm : fusionManager) (track : String) : List fusionPosition :=
  (mapLookup fm.tracks track).getD []

/-- Observable effects of the broadcast code paths: the single
`json.Marshal` call, each `conn.WriteMessage` attempt, log lines, and
the nil-pointer panic that Go would hit when a subscribed identifier is
missing from the registry. -/
inductive Event where
  | marshalAttempt
  | write (clientID : String) (bytes : Bytes)
  | logError (msg : String)
  | logWarn (msg : String)
  | panicNilClient (clientID : String)
  deriving DecidableEq, Repr

/-- The fan-out loop shared by `processServerMessage` and
`handleMsgBusButton`: for each subscribed identifier, fetch the client
from the registry (`nil` dereference if absent, which stops the program)
and attempt one write of the marshalled bytes, logging—but not
propagating—write errors. -/
def writeToSubscribers (writeOk : String → Bytes → Bool)
    (clients : List (String × fusionClient)) (b : Bytes) :
    List String → List Event
  | [] => []
  | clientID :: rest =>
      match mapLookup clients clientID with
      | none => [Event.panicNilClient clientID]
      | some _ =>
          (if writeOk clientID b then
            [Event.write clientID b]
          else
            [Event.write clientID b, Event.logError "unable to write"]) ++
          writeToSubscribers writeOk clients b rest

/-- `processAddClient`: insert the client into the registry (the spawned
reader goroutine is outside the state model). -/
def processAddClient (fm : fusionManager) (client : fusionClient) : fusionManager :=
  { fm with clients := mapUpdate fm.clients client.id client }

/-- `processRemoveClient`: for every topic remove the first matching
subscription entry (the loop breaks after one removal per topic), then
delete the client from the registry. -/
def processRemoveClient (fm : fusionManager) (clientID : String) : fusionManager :=
  { fm with
    subscriptions := fm.subscriptions.map (fun p => (p.1, removeFirst clientID p.2)),
    clients := fm.clients.filter (fun p => decide (p.1 ≠ clientID)) }

/-- `processServerMessage`: marshal the payload once; on failure log and
return; on success write the bytes to every subscriber of the topic.
The function mutates no actor state. -/
def processServerMessage {α : Type} (marshal : α → Option Bytes)
    (writeOk : String → Bytes → Bool) (fm : fusionManager) (sm : serverMessage α) :
    fusionManager × List Event :=
  match marshal sm.msg with
  | none => (fm, [Event.marshalAttempt, Event.logError "unable to marshal"])
  | some b =>
      (fm, Event.marshalAttempt :: writeToSubscribers writeOk fm.clients b (subsOf fm sm.topic))

/-- `handleMsgSubscribe`: read the topic's list (`nil` becomes the empty
list), do nothing if the client is already present, otherwise append. -/
def handleMsgSubscribe (fm : fusionManager) (clientID : String) (topic : String) :
    fusionManager :=
  let subs := subsOf fm topic
  if clientID ∈ subs then fm
  else { fm with subscriptions := mapUpdate fm.subscriptions topic (subs ++ [clientID]) }

/-- `handleMsgUnsubscribe`: remove the first matching entry and return;
if no entry matches, log a warning.  Never an error. -/
def handleMsgUnsubscribe (fm : fusionManager) (clientID : String) (topic : String) :
    fusionManager × List Event :=
  let subs := subsOf fm topic
  if clientID ∈ subs then
    ({ fm with subscriptions := mapUpdate fm.subscriptions topic (removeFirst clientID subs) },
     [])
  else
    (fm, [Event.logWarn "client requested unsubscribe from topic it's not subscribed to"])

/-- `handleMsgPosition`: stamp the receipt time (`fp.Time = time.Now()`)
and append to the track named by the payload, creating it lazily. -/
def handleMsgPosition (fm : fusionManager) (fp : fusionPosition) (now : Nat) :
    fusionManager :=
  let fp' := { fp with time := now }
  { fm with tracks := mapUpdate fm.tracks fp.track (tracksOf fm fp.track ++ [fp']) }

/-- `handleMsgBusButton`: increment the `uint64` counter, then marshal a
`bus_button` envelope and fan it out to the `"bus_button"` topic exactly
as `processServerMessage` does. -/
def handleMsgBusButton (marshal : fusionMessageEnvelope fusionBusButton → Option Bytes)
    (writeOk : String → Bytes → Bool) (fm : fusionManager) (fbb : fusionBusButton) :
    fusionManager × List Event :=
  let fm' := { fm with busButtonCount := (fm.busButtonCount + 1) % 2 ^ 64 }
  let fme : fusionMessageEnvelope fusionBusButton := { type := "bus_button", message := fbb }
  match marshal fme with
  | none => (fm', [Event.marshalAttempt, Event.logError "unable to marshal"])
  | some b =>
      (fm', Event.marshalAttempt ::
        writeToSubscribers writeOk fm'.clients b (subsOf fm' "bus_button"))

/-- `processDebug`: build the snapshot sent back on the debug channel:
clients without their connection handles, a copy of every track, and the
counter. -/
def processDebug (fm : fusionManager) : fusionManagerDebug :=
  { clients := fm.clients.map (fun p =>
      { id := p.2.id, conn := none,
        lastMessageTime := p.2.lastMessageTime, userAgent := p.2.userAgent }),
    tracks := fm.tracks.map (fun p => p.2),
    busButtonCount := fm.busButtonCount }

/-- Fold `handleMsgPosition` over a sequence of (payload, receipt time)
pairs, in arrival order. -/
def applyPositions (fm : fusionManager) (l : List (fusionPosition × Nat)) : fusionManager :=
  l.foldl (fun s p => handleMsgPosition s p.1 p.2) fm

/-- Number of write attempts to a given client in an event trace. -/
def countWrites (clientID : String) (trace : List Event) : Nat :=
  trace.countP (fun e => match e with
    | Event.write c _ => decide (c = clientID)
    | _ => false)

/-- Number of `json.Marshal` calls in an event trace. -/
def countMarshals (trace : List Event) : Nat :=
  trace.countP (fun e => match e with
    | Event.marshalAttempt => true
    | _ => false)

/-- Modelled from the spec: "swap-delete" removal of the element at
index `i` — the last element is moved into its place and the list is
truncated by one (the alternative the spec names, as opposed to the
splice the code performs). -/
def swapDelete {α : Type} (l : List α) (i : Nat) : List α :=
  match l.getLast? with
  | none => l
  | some last => (l.set i last).dropLast

/-- One actor event-loop iteration, as a relation between states.  A
`subscribe` step carries the fact that its sender is registered: a
reader goroutine exists only after `processAddClient` ran for it, its
channel sends are processed in order, and `removeClient` is sent only
after the reader's loop has exited, so the actor never dispatches a
subscribe for an unregistered identifier. -/
inductive Step : fusionManager → fusionManager → Prop where
  | addClient {fm : fusionManager} (c : fusionClient) :
      Step fm (processAddClient fm c)
  | removeClient {fm : fusionManager} (id : String) :
      Step fm (processRemoveClient fm id)
  | subscribe {fm : fusionManager} (id topic : String)
      (hreg : (mapLookup fm.clients id).isSome) :
      Step fm (handleMsgSubscribe fm id topic)
  | unsubscribe {fm : fusionManager} (id topic : String) :
      Step fm (handleMsgUnsubscribe fm id topic).1
  | position {fm : fusionManager} (fp : fusionPosition) (now : Nat) :
      Step fm (handleMsgPosition fm fp now)
  | busButton {fm : fusionManager}
      (marshal : fusionMessageEnvelope fusionBusButton → Option Bytes)
      (writeOk : String → Bytes → Bool) (fbb : fusionBusButton) :
      Step fm (handleMsgBusButton marshal writeOk fm fbb).1
  | serverMsg {α : Type} {fm : fusionManager} (marshal : α → Option Bytes)
      (writeOk : String → Bytes → Bool) (sm : serverMessage α) :
      Step fm (processServerMessage marshal writeOk fm sm).1
  | debug {fm : fusionManager} :
      Step fm fm

/-- States reachable from the freshly constructed manager. -/
inductive Reachable : fusionManager → Prop where
  | init : Reachable initialFusionManager
  | step {fm fm' : fusionManager} : Reachable fm → Step fm fm' → Reachable fm'

/-- The two structural invariants of the subscription state: every
topic's list is duplicate-free, and every subscribed identifier is a key
of the client registry. -/
def Inv (fm : fusionManager) : Prop :=
  (∀ topic, (subsOf fm topic).Nodup) ∧
  (∀ topic id, id ∈ subsOf fm topic → (mapLookup fm.clients id).isSome)

/-! ### Association-list lemmas -/

theorem mapLookup_mapUpdate {β : Type} (m : List (String × β)) (k : String) (v : β)
    (k' : String) :
    mapLookup (mapUpdate m k v) k' = if k = k' then some v else mapLookup m k' := by
  induction m with
  | nil => simp [mapUpdate, mapLookup]
  | cons p rest ih =>
      obtain ⟨a, b⟩ := p
      by_cases hak : a = k
      · subst hak
        by_cases h : a = k'
        · simp [mapUpdate, mapLookup, h]
        · simp [mapUpdate, mapLookup, h]
      · simp only [mapUpdate, if_neg hak, mapLookup]
        by_cases hak' : a = k'
        · subst hak'
          have hka : ¬ k = a := fun h => hak h.symm
          simp [mapLookup, hka]
        · simp [mapLookup, hak', ih]

theorem mapLookup_map_snd {β γ : Type} (f : β → γ) (m : List (String × β)) (k : String) :
    mapLookup (m.map (fun p => (p.1, f p.2))) k = (mapLookup m k).map f := by
  induction m with
  | nil => simp [mapLookup]
  | cons p rest ih =>
      obtain ⟨a, b⟩ := p
      by_cases hak : a = k
      · simp [mapLookup, hak]
      · simp [mapLookup, hak, ih]

theorem mapLookup_filter_ne {β : Type} (m : List (String × β)) (id k : String) :
    mapLookup (m.filter (fun p => decide (p.1 ≠ id))) k =
      if k = id then none else mapLookup m k := by
  induction m with
  | nil => simp [mapLookup]
  | cons p rest ih =>
      obtain ⟨a, b⟩ := p
      by_cases hai : a = id
      · subst hai
        rw [List.filter_cons, if_neg (by simp), ih]
        by_cases hk : k = a
        · simp [hk]
        · have hka : ¬ a = k := fun h => hk h.symm
          simp [mapLookup, hka, hk]
      · rw [List.filter_cons, if_pos (by simp [hai])]
        by_cases hak : a = k
        · subst hak
          have hkid : ¬ a = id := hai
          simp [mapLookup, hkid]
        · have ih' := ih
          simp only [ne_eq, decide_not] at ih'
          simp [mapLookup, hak, ih']

/-! ### `removeFirst` lemmas -/

theorem removeFirst_sublist (id : String) (l : List String) :
    (removeFirst id l).Sublist l := by
  induction l with
  | nil => simp [removeFirst]
  | cons s rest ih =>
      by_cases h : s = id
      · simp only [removeFirst, if_pos h]
        exact List.sublist_cons_self s rest
      · simp only [removeFirst, if_neg h]
        exact List.Sublist.cons₂ s ih

theorem removeFirst_of_not_mem {id : String} {l : List String} (h : id ∉ l) :
    removeFirst id l = l := by
  induction l with
  | nil => rfl
  | cons s rest ih =>
      have hs : ¬ s = id := fun hh => h (hh ▸ List.mem_cons_self s rest)
      have hrest : id ∉ rest := fun hh => h (List.mem_cons_of_mem s hh)
      simp [removeFirst, hs, ih hrest]

theorem count_removeFirst_self {id : String} {l : List String} (h : id ∈ l) :
    (removeFirst id l).count id = l.count id - 1 := by
  induction l with
  | nil => cases h
  | cons s rest ih =>
      by_cases hs : s = id
      · subst hs
        simp [removeFirst, List.count_cons]
      · have hrest : id ∈ rest := by
          cases List.mem_cons.mp h with
          | inl hh => exact absurd hh.symm hs
          | inr hh => exact hh
        have hc : 0 < rest.count id := List.count_pos_iff.mpr hrest
        simp only [removeFirst, if_neg hs, List.count_cons, ih hrest]
        simp [hs]

theorem count_removeFirst_ne {x id : String} (hx : x ≠ id) (l : List String) :
    (removeFirst id l).count x = l.count x := by
  induction l with
  | nil => rfl
  | cons s rest ih =>
      by_cases hs : s = id
      · subst hs
        simp [removeFirst, List.count_cons, hx]
      · simp [removeFirst, hs, List.count_cons, ih]

theorem not_mem_removeFirst_of_nodup {id : String} {l : List String} (h : l.Nodup) :
    id ∉ removeFirst id l := by
  intro hmem
  by_cases hl : id ∈ l
  · have hcount : l.count id = 1 := List.count_eq_one_of_mem h hl
    have hz := count_removeFirst_self hl
    rw [hcount] at hz
    exact absurd (List.count_pos_iff.mpr hmem) (by omega)
  · rw [removeFirst_of_not_mem hl] at hmem
    exact hl hmem

theorem nodup_removeFirst (id : String) {l : List String} (h : l.Nodup) :
    (removeFirst id l).Nodup :=
  (removeFirst_sublist id l).nodup h

theorem mem_of_mem_removeFirst {x id : String} {l : List String}
    (h : x ∈ removeFirst id l) : x ∈ l :=
  (removeFirst_sublist id l).mem h

/-! ### Handler-level lemmas -/

theorem handleMsgSubscribe_of_mem {fm : fusionManager} {id topic : String}
    (h : id ∈ subsOf fm topic) : handleMsgSubscribe fm id topic = fm := by
  simp [handleMsgSubscribe, h]

theorem handleMsgSubscribe_clients (fm : fusionManager) (id topic : String) :
    (handleMsgSubscribe fm id topic).clients = fm.clients := by
  unfold handleMsgSubscribe
  by_cases h : id ∈ subsOf fm topic <;> simp [h]

theorem handleMsgSubscribe_tracks (fm : fusionManager) (id topic : String) :
    (handleMsgSubscribe fm id topic).tracks = fm.tracks := by
  unfold handleMsgSubscribe
  by_cases h : id ∈ subsOf fm topic <;> simp [h]

theorem handleMsgSubscribe_busButtonCount (fm : fusionManager) (id topic : String) :
    (handleMsgSubscribe fm id topic).busButtonCount = fm.busButtonCount := by
  unfold handleMsgSubscribe
  by_cases h : id ∈ subsOf fm topic <;> simp [h]

theorem subsOf_handleMsgSubscribe (fm : fusionManager) (id topic t : String) :
    subsOf (handleMsgSubscribe fm id topic) t =
      if id ∈ subsOf fm topic then subsOf fm t
      else if topic = t then subsOf fm topic ++ [id] else subsOf fm t := by
  by_cases h : id ∈ subsOf fm topic
  · simp [handleMsgSubscribe, h]
  · simp only [handleMsgSubscribe, if_neg h]
    show (mapLookup (mapUpdate fm.subscriptions topic (subsOf fm topic ++ [id])) t).getD [] = _
    rw [mapLookup_mapUpdate]
    by_cases ht : topic = t <;> simp [ht, subsOf, h]

theorem handleMsgUnsubscribe_of_not_mem {fm : fusionManager} {id topic : String}
    (h : id ∉ subsOf fm topic) :
    handleMsgUnsubscribe fm id topic =
      (fm, [Event.logWarn "client requested unsubscribe from topic it's not subscribed to"]) := by
  simp [handleMsgUnsubscribe, h]

theorem handleMsgUnsubscribe_of_mem {fm : fusionManager} {id topic : String}
    (h : id ∈ subsOf fm topic) :
    handleMsgUnsubscribe fm id topic =
      ({ fm with subscriptions :=
           mapUpdate fm.subscriptions topic (removeFirst id (subsOf fm topic)) }, []) := by
  simp [handleMsgUnsubscribe, h]

theorem subsOf_handleMsgUnsubscribe (fm : fusionManager) (id topic t : String) :
    subsOf (handleMsgUnsubscribe fm id topic).1 t =
      if id ∈ subsOf fm topic then
        (if topic = t then removeFirst id (subsOf fm topic) else subsOf fm t)
      else subsOf fm t := by
  by_cases h : id ∈ subsOf fm topic
  · rw [handleMsgUnsubscribe_of_mem h]
    show (mapLookup (mapUpdate fm.subscriptions topic (removeFirst id (subsOf fm topic))) t).getD [] = _
    rw [mapLookup_mapUpdate, if_pos h]
    by_cases ht : topic = t <;> simp [ht, subsOf]
  · rw [handleMsgUnsubscribe_of_not_mem h]
    simp [h]

theorem subsOf_processRemoveClient (fm : fusionManager) (id t : String) :
    subsOf (processRemoveClient fm id) t = removeFirst id (subsOf fm t) := by
  show (mapLookup (fm.subscriptions.map (fun p => (p.1, removeFirst id p.2))) t).getD [] = _
  rw [mapLookup_map_snd]
  rcases hml : mapLookup fm.subscriptions t with _ | l <;> simp [subsOf, hml, removeFirst]

theorem clients_processRemoveClient (fm : fusionManager) (id k : String) :
    mapLookup (processRemoveClient fm id).clients k =
      if k = id then none else mapLookup fm.clients k :=
  mapLookup_filter_ne fm.clients id k

theorem clients_processAddClient (fm : fusionManager) (c : fusionClient) (k : String) :
    mapLookup (processAddClient fm c).clients k =
      if c.id = k then some c else mapLookup fm.clients k :=
  mapLookup_mapUpdate fm.clients c.id c k

theorem tracksOf_handleMsgPosition_self (fm : fusionManager) (fp : fusionPosition)
    (now : Nat) :
    tracksOf (handleMsgPosition fm fp now) fp.track =
      tracksOf fm fp.track ++ [{ fp with time := now }] := by
  show (mapLookup (mapUpdate fm.tracks fp.track (tracksOf fm fp.track ++ [{ fp with time := now }]))
          fp.track).getD [] = _
  rw [mapLookup_mapUpdate]
  simp

theorem handleMsgBusButton_fst (marshal : fusionMessageEnvelope fusionBusButton → Option Bytes)
    (writeOk : String → Bytes → Bool) (fm : fusionManager) (fbb : fusionBusButton) :
    (handleMsgBusButton marshal writeOk fm fbb).1 =
      { fm with busButtonCount := (fm.busButtonCount + 1) % 2 ^ 64 } := by
  rcases h : marshal { type := "bus_button", message := fbb } with _ | b <;>
    simp [handleMsgBusButton, h]

theorem processServerMessage_fst {α : Type} (marshal : α → Option Bytes)
    (writeOk : String → Bytes → Bool) (fm : fusionManager) (sm : serverMessage α) :
    (processServerMessage marshal writeOk fm sm).1 = fm := by
  rcases h : marshal sm.msg with _ | b <;> simp [processServerMessage, h]

/-! ### Broadcast-loop lemmas -/

theorem countWrites_append (x : String) (l1 l2 : List Event) :
    countWrites x (l1 ++ l2) = countWrites x l1 + countWrites x l2 :=
  List.countP_append _ l1 l2

theorem countWrites_single_write (x c : String) (b : Bytes) :
    countWrites x [Event.write c b] = if c = x then 1 else 0 := by
  by_cases h : c = x <;> simp [countWrites, List.countP_cons, h]

theorem countWrites_write_log (x c : String) (b : Bytes) (s : String) :
    countWrites x [Event.write c b, Event.logError s] = if c = x then 1 else 0 := by
  by_cases h : c = x <;> simp [countWrites, List.countP_cons, h]

theorem countWrites_single_panic (x c : String) :
    countWrites x [Event.panicNilClient c] = 0 := rfl

theorem countMarshals_append (l1 l2 : List Event) :
    countMarshals (l1 ++ l2) = countMarshals l1 + countMarshals l2 :=
  List.countP_append _ l1 l2

theorem countWrites_writeToSubscribers (writeOk : String → Bytes → Bool)
    (clients : List (String × fusionClient)) (b : Bytes) (subs : List String)
    (hreg : ∀ id ∈ subs, (mapLookup clients id).isSome) (x : String) :
    countWrites x (writeToSubscribers writeOk clients b subs) = subs.count x := by
  induction subs with
  | nil => rfl
  | cons c rest ih =>
      have hc := hreg c (List.mem_cons_self c rest)
      rcases hml : mapLookup clients c with _ | cl
      · rw [hml] at hc
        cases hc
      · have ihr := ih (fun i hi => hreg i (List.mem_cons_of_mem c hi))
        by_cases hw : writeOk c b
        · simp only [writeToSubscribers, hml, if_pos hw]
          rw [countWrites_append, countWrites_single_write, ihr, List.count_cons]
          by_cases hcx : c = x <;> simp [hcx, Nat.add_comm]
        · simp only [writeToSubscribers, hml, if_neg hw]
          rw [countWrites_append, countWrites_write_log, ihr, List.count_cons]
          by_cases hcx : c = x <;> simp [hcx, Nat.add_comm]

theorem countWrites_writeToSubscribers_of_not_mem {x : String} {subs : List String}
    (hx : x ∉ subs) (writeOk : String → Bytes → Bool)
    (clients : List (String × fusionClient)) (b : Bytes) :
    countWrites x (writeToSubscribers writeOk clients b subs) = 0 := by
  induction subs with
  | nil => rfl
  | cons c rest ih =>
      have hcx : ¬ c = x := fun h => hx (h ▸ List.mem_cons_self c rest)
      have hxr : x ∉ rest := fun h => hx (List.mem_cons_of_mem c h)
      rcases hml : mapLookup clients c with _ | cl
      · simp only [writeToSubscribers, hml]
        exact countWrites_single_panic x c
      · by_cases hw : writeOk c b
        · simp only [writeToSubscribers, hml, if_pos hw]
          rw [countWrites_append, countWrites_single_write, ih hxr, if_neg hcx]
        · simp only [writeToSubscribers, hml, if_neg hw]
          rw [countWrites_append, countWrites_write_log, ih hxr, if_neg hcx]

theorem write_mem_writeToSubscribers {x : String} {subs : List String}
    (writeOk : String → Bytes → Bool) (clients : List (String × fusionClient)) (b : Bytes)
    (hreg : ∀ id ∈ subs, (mapLookup clients id).isSome) (hx : x ∈ subs) :
    Event.write x b ∈ writeToSubscribers writeOk clients b subs := by
  induction subs with
  | nil => cases hx
  | cons c rest ih =>
      have hc := hreg c (List.mem_cons_self c rest)
      rcases hml : mapLookup clients c with _ | cl
      · rw [hml] at hc
        cases hc
      · rcases List.mem_cons.mp hx with hcx | hxr
        · subst hcx
          by_cases hw : writeOk x b <;> simp [writeToSubscribers, hml, hw]
        · have ihr := ih (fun i hi => hreg i (List.mem_cons_of_mem c hi)) hxr
          by_cases hw : writeOk c b <;> simp [writeToSubscribers, hml, hw, ihr]

theorem panic_not_mem_writeToSubscribers {subs : List String}
    (writeOk : String → Bytes → Bool) (clients : List (String × fusionClient)) (b : Bytes)
    (hreg : ∀ id ∈ subs, (mapLookup clients id).isSome) (c : String) :
    Event.panicNilClient c ∉ writeToSubscribers writeOk clients b subs := by
  induction subs with
  | nil => simp [writeToSubscribers]
  | cons s rest ih =>
      have hs := hreg s (List.mem_cons_self s rest)
      rcases hml : mapLookup clients s with _ | cl
      · rw [hml] at hs
        cases hs
      · have ihr := ih (fun i hi => hreg i (List.mem_cons_of_mem s hi))
        by_cases hw : writeOk s b <;> simp [writeToSubscribers, hml, hw, ihr]

theorem countMarshals_writeToSubscribers (writeOk : String → Bytes → Bool)
    (clients : List (String × fusionClient)) (b : Bytes) (subs : List String) :
    countMarshals (writeToSubscribers writeOk clients b subs) = 0 := by
  induction subs with
  | nil => rfl
  | cons c rest ih =>
      rcases hml : mapLookup clients c with _ | cl
      · simp only [writeToSubscribers, hml]
        rfl
      · by_cases hw : writeOk c b
        · simp only [writeToSubscribers, hml, if_pos hw]
          rw [countMarshals_append, ih]
          rfl
        · simp only [writeToSubscribers, hml, if_neg hw]
          rw [countMarshals_append, ih]
          rfl

/-! ### Invariant preservation and reachability -/

theorem inv_initial : Inv initialFusionManager := by
  constructor
  · intro topic
    simp [subsOf, mapLookup, initialFusionManager]
  · intro topic id hid
    simp [subsOf, mapLookup, initialFusionManager] at hid

theorem handleMsgUnsubscribe_clients (fm : fusionManager) (id topic : String) :
    (handleMsgUnsubscribe fm id topic).1.clients = fm.clients := by
  by_cases h : id ∈ subsOf fm topic
  · rw [handleMsgUnsubscribe_of_mem h]
  · rw [handleMsgUnsubscribe_of_not_mem h]

theorem inv_step {fm fm' : fusionManager} (hInv : Inv fm) (hs : Step fm fm') : Inv fm' := by
  obtain ⟨hnd, hreg⟩ := hInv
  cases hs with
  | addClient c =>
      refine ⟨fun t => hnd t, fun t id hid => ?_⟩
      rw [clients_processAddClient]
      by_cases h : c.id = id
      · simp [h]
      · rw [if_neg h]
        exact hreg t id hid
  | removeClient id =>
      refine ⟨fun t => ?_, fun t x hx => ?_⟩
      · rw [subsOf_processRemoveClient]
        exact nodup_removeFirst id (hnd t)
      · rw [subsOf_processRemoveClient] at hx
        have hxid : x ≠ id := by
          intro hh
          subst hh
          exact not_mem_removeFirst_of_nodup (hnd t) hx
        rw [clients_processRemoveClient, if_neg hxid]
        exact hreg t x (mem_of_mem_removeFirst hx)
  | subscribe id topic hreg' =>
      refine ⟨fun t => ?_, fun t x hx => ?_⟩
      · rw [subsOf_handleMsgSubscribe]
        by_cases h : id ∈ subsOf fm topic
        · rw [if_pos h]
          exact hnd t
        · rw [if_neg h]
          by_cases ht : topic = t
          · rw [if_pos ht]
            refine (hnd topic).append (List.nodup_singleton id) ?_
            intro a ha hb
            simp at hb
            subst hb
            exact h ha
          · rw [if_neg ht]
            exact hnd t
      · rw [handleMsgSubscribe_clients]
        rw [subsOf_handleMsgSubscribe] at hx
        by_cases h : id ∈ subsOf fm topic
        · rw [if_pos h] at hx
          exact hreg t x hx
        · rw [if_neg h] at hx
          by_cases ht : topic = t
          · rw [if_pos ht] at hx
            rcases List.mem_append.mp hx with h1 | h2
            · exact hreg topic x h1
            · simp at h2
              subst h2
              exact hreg'
          · rw [if_neg ht] at hx
            exact hreg t x hx
  | unsubscribe id topic =>
      refine ⟨fun t => ?_, fun t x hx => ?_⟩
      · rw [subsOf_handleMsgUnsubscribe]
        by_cases h : id ∈ subsOf fm topic
        · rw [if_pos h]
          by_cases ht : topic = t
          · rw [if_pos ht]
            exact nodup_removeFirst id (hnd topic)
          · rw [if_neg ht]
            exact hnd t
        · rw [if_neg h]
          exact hnd t
      · rw [handleMsgUnsubscribe_clients]
        rw [subsOf_handleMsgUnsubscribe] at hx
        by_cases h : id ∈ subsOf fm topic
        · rw [if_pos h] at hx
          by_cases ht : topic = t
          · rw [if_pos ht] at hx
            exact hreg topic x (mem_of_mem_removeFirst hx)
          · rw [if_neg ht] at hx
            exact hreg t x hx
        · rw [if_neg h] at hx
          exact hreg t x hx
  | position fp now =>
      exact ⟨hnd, hreg⟩
  | busButton marshal writeOk fbb =>
      rw [handleMsgBusButton_fst]
      exact ⟨hnd, hreg⟩
  | serverMsg marshal writeOk sm =>
      rw [processServerMessage_fst]
      exact ⟨hnd, hreg⟩
  | debug =>
      exact ⟨hnd, hreg⟩

theorem reachable_inv {fm : fusionManager} (h : Reachable fm) : Inv fm := by
  induction h with
  | init => exact inv_initial
  | step hr hs ih => exact inv_step ih hs

theorem countMarshals_cons_marshal (tr : List Event) :
    countMarshals (Event.marshalAttempt :: tr) = countMarshals tr + 1 := by
  simp [countMarshals, List.countP_cons]

theorem countWrites_cons_marshal (x : String) (tr : List Event) :
    countWrites x (Event.marshalAttempt :: tr) = countWrites x tr := by
  simp [countWrites, List.countP_cons]

/-! ## Claims -/

/-- C1: For every topic `T` with `N` distinct subscribed clients and
every payload `P`, processing a `Broadcast(T, P)` server message
(`processServerMessage`) marshals `P` exactly once — not once per
recipient — and writes the marshalled bytes exactly once to each of the
`N` subscribed clients' connections; a client not subscribed to `T`
receives nothing from that broadcast. -/
theorem c1_broadcast_marshal_once_write_each {α : Type} (marshal : α → Option Bytes)
    (writeOk : String → Bytes → Bool) (fm : fusionManager) (topic : String) (msg : α)
    (b : Bytes)
    (hmar : marshal msg = some b)
    (hnd : (subsOf fm topic).Nodup)
    (hreg : ∀ id ∈ subsOf fm topic, (mapLookup fm.clients id).isSome) :
    countMarshals (processServerMessage marshal writeOk fm ⟨topic, msg⟩).2 = 1 ∧
    (∀ id ∈ subsOf fm topic,
      countWrites id (processServerMessage marshal writeOk fm ⟨topic, msg⟩).2 = 1 ∧
      Event.write id b ∈ (processServerMessage marshal writeOk fm ⟨topic, msg⟩).2) ∧
    (∀ id, id ∉ subsOf fm topic →
      countWrites id (processServerMessage marshal writeOk fm ⟨topic, msg⟩).2 = 0) := by
  have htr : (processServerMessage marshal writeOk fm ⟨topic, msg⟩).2 =
      Event.marshalAttempt :: writeToSubscribers writeOk fm.clients b (subsOf fm topic) := by
    simp [processServerMessage, hmar]
  rw [htr]
  refine ⟨?_, fun id hid => ⟨?_, ?_⟩, fun id hid => ?_⟩
  · rw [countMarshals_cons_marshal, countMarshals_writeToSubscribers]
  · rw [countWrites_cons_marshal, countWrites_writeToSubscribers writeOk fm.clients b _ hreg]
    exact List.count_eq_one_of_mem hnd hid
  · exact List.mem_cons_of_mem _ (write_mem_writeToSubscribers writeOk fm.clients b hreg hid)
  · rw [countWrites_cons_marshal]
    exact countWrites_writeToSubscribers_of_not_mem hid writeOk fm.clients b

/-- Witness for C1 at a concrete two-subscriber state. -/
theorem c1_broadcast_marshal_once_write_each_witness :
    countMarshals (processServerMessage (fun _ : Nat => some [7]) (fun _ _ => true)
      { subscriptions := [("t", ["a", "b"])],
        clients := [("a", { id := "a", conn := some 1, lastMessageTime := 0, userAgent := "x" }),
                    ("b", { id := "b", conn := some 2, lastMessageTime := 0, userAgent := "y" })],
        tracks := [], busButtonCount := 0 } ⟨"t", 0⟩).2 = 1 ∧
    countWrites "a" (processServerMessage (fun _ : Nat => some [7]) (fun _ _ => true)
      { subscriptions := [("t", ["a", "b"])],
        clients := [("a", { id := "a", conn := some 1, lastMessageTime := 0, userAgent := "x" }),
                    ("b", { id := "b", conn := some 2, lastMessageTime := 0, userAgent := "y" })],
        tracks := [], busButtonCount := 0 } ⟨"t", 0⟩).2 = 1 ∧
    countWrites "z" (processServerMessage (fun _ : Nat => some [7]) (fun _ _ => true)
      { subscriptions := [("t", ["a", "b"])],
        clients := [("a", { id := "a", conn := some 1, lastMessageTime := 0, userAgent := "x" }),
                    ("b", { id := "b", conn := some 2, lastMessageTime := 0, userAgent := "y" })],
        tracks := [], busButtonCount := 0 } ⟨"t", 0⟩).2 = 0 := by
  have h := c1_broadcast_marshal_once_write_each (fun _ : Nat => some [7]) (fun _ _ => true)
    { subscriptions := [("t", ["a", "b"])],
      clients := [("a", { id := "a", conn := some 1, lastMessageTime := 0, userAgent := "x" }),
                  ("b", { id := "b", conn := some 2, lastMessageTime := 0, userAgent := "y" })],
      tracks := [], busButtonCount := 0 } "t" 0 [7] rfl (by decide) (by decide)
  exact ⟨h.1, (h.2.1 "a" (by decide)).1, h.2.2 "z" (by decide)⟩

/-- C2: In every reachable actor state every topic's subscriber list
contains a given client identifier at most once (duplicate-free lists),
and processing Subscribe(clientID, topic) twice for the same client and
topic leaves exactly one entry for that client in that topic's list. -/
theorem c2_subscribe_idempotent {fm : fusionManager} (hr : Reachable fm)
    (id topic : String) :
    (∀ t, (subsOf fm t).Nodup) ∧
    (subsOf (handleMsgSubscribe (handleMsgSubscribe fm id topic) id topic) topic).count id
      = 1 := by
  obtain ⟨hnd, hreg⟩ := reachable_inv hr
  refine ⟨hnd, ?_⟩
  by_cases h : id ∈ subsOf fm topic
  · rw [handleMsgSubscribe_of_mem h, handleMsgSubscribe_of_mem h]
    exact List.count_eq_one_of_mem (hnd topic) h
  · have h1 : subsOf (handleMsgSubscribe fm id topic) topic = subsOf fm topic ++ [id] := by
      rw [subsOf_handleMsgSubscribe, if_neg h, if_pos rfl]
    have hmem : id ∈ subsOf (handleMsgSubscribe fm id topic) topic := by
      rw [h1]
      exact List.mem_append_right _ (List.mem_singleton_self id)
    rw [handleMsgSubscribe_of_mem hmem, h1, List.count_append]
    have hz : (subsOf fm topic).count id = 0 := List.count_eq_zero.mpr h
    simp [hz]

/-- Witness for C2: double subscribe from the initial (reachable) state. -/
theorem c2_subscribe_idempotent_witness :
    (subsOf (handleMsgSubscribe (handleMsgSubscribe initialFusionManager "c" "t") "c" "t")
      "t").count "c" = 1 :=
  (c2_subscribe_idempotent Reachable.init "c" "t").2

/-- C3: `processRemoveClient` removes the identifier from the registry
and from the subscriber list of every topic in which it appears; topics
where it is already absent are left exactly unchanged (a silent no-op —
the handler produces no events at all, hence no error); afterwards a
broadcast to any topic never attempts a write to that client. -/
theorem c3_deregister_removes_everywhere (fm : fusionManager) (id : String)
    (hnd : ∀ t, (subsOf fm t).Nodup) :
    mapLookup (processRemoveClient fm id).clients id = none ∧
    (∀ t, id ∉ subsOf (processRemoveClient fm id) t) ∧
    (∀ t, id ∉ subsOf fm t → subsOf (processRemoveClient fm id) t = subsOf fm t) ∧
    (∀ (α : Type) (marshal : α → Option Bytes) (writeOk : String → Bytes → Bool)
        (topic : String) (msg : α),
      countWrites id
        (processServerMessage marshal writeOk (processRemoveClient fm id) ⟨topic, msg⟩).2
        = 0) := by
  refine ⟨?_, fun t => ?_, fun t ht => ?_, fun α marshal writeOk topic msg => ?_⟩
  · rw [clients_processRemoveClient, if_pos rfl]
  · rw [subsOf_processRemoveClient]
    exact not_mem_removeFirst_of_nodup (hnd t)
  · rw [subsOf_processRemoveClient]
    exact removeFirst_of_not_mem ht
  · rcases hm : marshal msg with _ | b
    · simp [processServerMessage, hm, countWrites, List.countP_cons]
    · have htr : (processServerMessage marshal writeOk (processRemoveClient fm id)
          ⟨topic, msg⟩).2 =
          Event.marshalAttempt :: writeToSubscribers writeOk (processRemoveClient fm id).clients
            b (subsOf (processRemoveClient fm id) topic) := by
        simp [processServerMessage, hm]
      rw [htr, countWrites_cons_marshal]
      apply countWrites_writeToSubscribers_of_not_mem
      rw [subsOf_processRemoveClient]
      exact not_mem_removeFirst_of_nodup (hnd topic)

/-- Witness for C3 at a concrete state with two subscribers. -/
theorem c3_deregister_removes_everywhere_witness :
    mapLookup (processRemoveClient
      { subscriptions := [("t", ["a", "b"])],
        clients := [("a", { id := "a", conn := some 1, lastMessageTime := 0, userAgent := "x" }),
                    ("b", { id := "b", conn := some 2, lastMessageTime := 0, userAgent := "y" })],
        tracks := [], busButtonCount := 0 } "a").clients "a" = none ∧
    "a" ∉ subsOf (processRemoveClient
      { subscriptions := [("t", ["a", "b"])],
        clients := [("a", { id := "a", conn := some 1, lastMessageTime := 0, userAgent := "x" }),
                    ("b", { id := "b", conn := some 2, lastMessageTime := 0, userAgent := "y" })],
        tracks := [], busButtonCount := 0 } "a") "t" ∧
    countWrites "a" (processServerMessage (fun _ : Nat => some [7]) (fun _ _ => true)
      (processRemoveClient
        { subscriptions := [("t", ["a", "b"])],
          clients := [("a", { id := "a", conn := some 1, lastMessageTime := 0, userAgent := "x" }),
                      ("b", { id := "b", conn := some 2, lastMessageTime := 0, userAgent := "y" })],
          tracks := [], busButtonCount := 0 } "a") ⟨"t", 0⟩).2 = 0 := by
  have h := c3_deregister_removes_everywhere
    { subscriptions := [("t", ["a", "b"])],
      clients := [("a", { id := "a", conn := some 1, lastMessageTime := 0, userAgent := "x" }),
                  ("b", { id := "b", conn := some 2, lastMessageTime := 0, userAgent := "y" })],
      tracks := [], busButtonCount := 0 } "a"
    (by
      intro t
      by_cases ht : "t" = t
      · simp [subsOf, mapLookup, ht]
      · simp [subsOf, mapLookup, ht])
  exact ⟨h.1, h.2.1 "t", h.2.2.2 Nat (fun _ => some [7]) (fun _ _ => true) "t" 0⟩

/-- The cumulative effect of a sequence of Position events on one track:
each is stamped with its receipt time and appended in arrival order. -/
theorem applyPositions_track (tid : String) (l : List (fusionPosition × Nat)) :
    ∀ fm : fusionManager, (∀ p ∈ l, p.1.track = tid) →
      tracksOf (applyPositions fm l) tid =
        tracksOf fm tid ++ l.map (fun p => { p.1 with time := p.2 }) := by
  induction l with
  | nil =>
      intro fm _
      simp [applyPositions]
  | cons p rest ih =>
      intro fm hl
      have hp : p.1.track = tid := hl p (List.mem_cons_self p rest)
      have h1 := tracksOf_handleMsgPosition_self fm p.1 p.2
      rw [hp] at h1
      show tracksOf (applyPositions (handleMsgPosition fm p.1 p.2) rest) tid = _
      rw [ih _ (fun q hq => hl q (List.mem_cons_of_mem p hq)), h1]
      simp
      exact hp.symm

/-- C4: every Position payload is stamped with the server receipt time,
overwriting any client-supplied time, and appended to the track named by
its track identifier (created lazily); N sequential Position events for
one track extend that track by exactly those N positions in arrival
order, each with a non-zero time whenever the receipt times are
non-zero. -/
theorem c4_position_stamped_appended (fm : fusionManager) (tid : String)
    (l : List (fusionPosition × Nat)) (hl : ∀ p ∈ l, p.1.track = tid) :
    tracksOf (applyPositions fm l) tid =
      tracksOf fm tid ++ l.map (fun p => { p.1 with time := p.2 }) ∧
    (tracksOf (applyPositions fm l) tid).length = (tracksOf fm tid).length + l.length ∧
    ((∀ p ∈ l, p.2 ≠ 0) →
      ∀ q ∈ l.map (fun p => { p.1 with time := p.2 }), q.time ≠ 0) := by
  have h := applyPositions_track tid l fm hl
  refine ⟨h, ?_, fun hnz q hq => ?_⟩
  · rw [h]
    simp
  · rcases List.mem_map.mp hq with ⟨p, hp, rfl⟩
    exact hnz p hp

/-- Witness for C4: two positions on a fresh track of the initial state,
with a client-supplied time that gets overwritten. -/
theorem c4_position_stamped_appended_witness :
    tracksOf (applyPositions initialFusionManager
      [({ latitude := 1, longitude := 2, speed := none, heading := none,
          track := "tr", time := 999 }, 5),
       ({ latitude := 3, longitude := 4, speed := some 6, heading := none,
          track := "tr", time := 0 }, 6)]) "tr" =
      [{ latitude := 1, longitude := 2, speed := none, heading := none,
         track := "tr", time := 5 },
       { latitude := 3, longitude := 4, speed := some 6, heading := none,
         track := "tr", time := 6 }] := by
  have h := c4_position_stamped_appended initialFusionManager "tr"
    [({ latitude := 1, longitude := 2, speed := none, heading := none,
        track := "tr", time := 999 }, 5),
     ({ latitude := 3, longitude := 4, speed := some 6, heading := none,
        track := "tr", time := 0 }, 6)] (by decide)
  rw [h.1]
  rfl

/-- The event trace of one bus-button round when its marshal succeeds:
one marshal attempt followed by the fan-out over the `"bus_button"`
subscribers (the counter increment leaves subscriptions and registry
untouched). -/
theorem handleMsgBusButton_snd (marshal : fusionMessageEnvelope fusionBusButton → Option Bytes)
    (writeOk : String → Bytes → Bool) (fm : fusionManager) (fbb : fusionBusButton) {b : Bytes}
    (hm : marshal { type := "bus_button", message := fbb } = some b) :
    (handleMsgBusButton marshal writeOk fm fbb).2 =
      Event.marshalAttempt ::
        writeToSubscribers writeOk fm.clients b (subsOf fm "bus_button") := by
  simp [handleMsgBusButton, hm]
  rfl

/-- C5: each BusButton event increments the global counter by exactly
one and performs one broadcast of the wrapping envelope to topic
`"bus_button"`; three consecutive events therefore leave the counter
three higher and produce exactly three marshals and three write
attempts per subscriber of that topic. -/
theorem c5_bus_button_counter_and_broadcasts
    (marshal : fusionMessageEnvelope fusionBusButton → Option Bytes)
    (writeOk : String → Bytes → Bool) (fm : fusionManager)
    (f1 f2 f3 : fusionBusButton) (b1 b2 b3 : Bytes)
    (fm1 fm2 fm3 : fusionManager) (tr1 tr2 tr3 : List Event)
    (h1 : handleMsgBusButton marshal writeOk fm f1 = (fm1, tr1))
    (h2 : handleMsgBusButton marshal writeOk fm1 f2 = (fm2, tr2))
    (h3 : handleMsgBusButton marshal writeOk fm2 f3 = (fm3, tr3))
    (hm1 : marshal { type := "bus_button", message := f1 } = some b1)
    (hm2 : marshal { type := "bus_button", message := f2 } = some b2)
    (hm3 : marshal { type := "bus_button", message := f3 } = some b3)
    (hsmall : fm.busButtonCount + 3 < 2 ^ 64)
    (hnd : (subsOf fm "bus_button").Nodup)
    (hreg : ∀ id ∈ subsOf fm "bus_button", (mapLookup fm.clients id).isSome) :
    fm1.busButtonCount = fm.busButtonCount + 1 ∧
    fm2.busButtonCount = fm.busButtonCount + 2 ∧
    fm3.busButtonCount = fm.busButtonCount + 3 ∧
    countMarshals (tr1 ++ tr2 ++ tr3) = 3 ∧
    (∀ id ∈ subsOf fm "bus_button", countWrites id (tr1 ++ tr2 ++ tr3) = 3) := by
  have hfm1 : fm1 = { fm with busButtonCount := (fm.busButtonCount + 1) % 2 ^ 64 } := by
    have h := handleMsgBusButton_fst marshal writeOk fm f1
    rw [h1] at h
    exact h
  have hfm2 : fm2 = { fm1 with busButtonCount := (fm1.busButtonCount + 1) % 2 ^ 64 } := by
    have h := handleMsgBusButton_fst marshal writeOk fm1 f2
    rw [h2] at h
    exact h
  have hfm3 : fm3 = { fm2 with busButtonCount := (fm2.busButtonCount + 1) % 2 ^ 64 } := by
    have h := handleMsgBusButton_fst marshal writeOk fm2 f3
    rw [h3] at h
    exact h
  have c1 : fm1.busButtonCount = fm.busButtonCount + 1 := by
    rw [hfm1]
    exact Nat.mod_eq_of_lt (by omega)
  have c2 : fm2.busButtonCount = fm.busButtonCount + 2 := by
    rw [hfm2]
    show (fm1.busButtonCount + 1) % 2 ^ 64 = fm.busButtonCount + 2
    rw [c1]
    exact Nat.mod_eq_of_lt (by omega)
  have c3 : fm3.busButtonCount = fm.busButtonCount + 3 := by
    rw [hfm3]
    show (fm2.busButtonCount + 1) % 2 ^ 64 = fm.busButtonCount + 3
    rw [c2]
    exact Nat.mod_eq_of_lt (by omega)
  have hc1 : fm1.clients = fm.clients := by
    rw [hfm1]
  have hs1 : subsOf fm1 "bus_button" = subsOf fm "bus_button" := by
    rw [hfm1]
    rfl
  have hc2 : fm2.clients = fm.clients := by
    rw [hfm2]
    exact hc1
  have hs2 : subsOf fm2 "bus_button" = subsOf fm "bus_button" := by
    rw [hfm2]
    exact hs1
  have t1 : tr1 = Event.marshalAttempt ::
      writeToSubscribers writeOk fm.clients b1 (subsOf fm "bus_button") := by
    have h := handleMsgBusButton_snd marshal writeOk fm f1 hm1
    rw [h1] at h
    exact h
  have t2 : tr2 = Event.marshalAttempt ::
      writeToSubscribers writeOk fm.clients b2 (subsOf fm "bus_button") := by
    have h := handleMsgBusButton_snd marshal writeOk fm1 f2 hm2
    rw [h2, hc1, hs1] at h
    exact h
  have t3 : tr3 = Event.marshalAttempt ::
      writeToSubscribers writeOk fm.clients b3 (subsOf fm "bus_button") := by
    have h := handleMsgBusButton_snd marshal writeOk fm2 f3 hm3
    rw [h3, hc2, hs2] at h
    exact h
  refine ⟨c1, c2, c3, ?_, fun id hid => ?_⟩
  · rw [t1, t2, t3, countMarshals_append, countMarshals_append,
      countMarshals_cons_marshal, countMarshals_cons_marshal, countMarshals_cons_marshal,
      countMarshals_writeToSubscribers, countMarshals_writeToSubscribers,
      countMarshals_writeToSubscribers]
  · rw [t1, t2, t3, countWrites_append, countWrites_append,
      countWrites_cons_marshal, countWrites_cons_marshal, countWrites_cons_marshal,
      countWrites_writeToSubscribers writeOk fm.clients b1 _ hreg,
      countWrites_writeToSubscribers writeOk fm.clients b2 _ hreg,
      countWrites_writeToSubscribers writeOk fm.clients b3 _ hreg,
      List.count_eq_one_of_mem hnd hid]

/-- Witness for C5: three bus-button events from the zero-counter state
with one subscriber. -/
theorem c5_bus_button_counter_and_broadcasts_witness :
    ((handleMsgBusButton (fun _ => some [9]) (fun _ _ => true)
      ((handleMsgBusButton (fun _ => some [9]) (fun _ _ => true)
        ((handleMsgBusButton (fun _ => some [9]) (fun _ _ => true)
          { subscriptions := [("bus_button", ["a"])],
            clients := [("a", { id := "a", conn := some 1, lastMessageTime := 0,
                                userAgent := "x" })],
            tracks := [], busButtonCount := 0 }
          { latitude := 0, longitude := 0 }).1)
        { latitude := 0, longitude := 0 }).1)
      { latitude := 0, longitude := 0 }).1).busButtonCount = 3 ∧
    countWrites "a"
      ((handleMsgBusButton (fun _ => some [9]) (fun _ _ => true)
        { subscriptions := [("bus_button", ["a"])],
          clients := [("a", { id := "a", conn := some 1, lastMessageTime := 0,
                              userAgent := "x" })],
          tracks := [], busButtonCount := 0 }
        { latitude := 0, longitude := 0 }).2 ++
       (handleMsgBusButton (fun _ => some [9]) (fun _ _ => true)
        ((handleMsgBusButton (fun _ => some [9]) (fun _ _ => true)
          { subscriptions := [("bus_button", ["a"])],
            clients := [("a", { id := "a", conn := some 1, lastMessageTime := 0,
                                userAgent := "x" })],
            tracks := [], busButtonCount := 0 }
          { latitude := 0, longitude := 0 }).1)
        { latitude := 0, longitude := 0 }).2 ++
       (handleMsgBusButton (fun _ => some [9]) (fun _ _ => true)
        ((handleMsgBusButton (fun _ => some [9]) (fun _ _ => true)
          ((handleMsgBusButton (fun _ => some [9]) (fun _ _ => true)
            { subscriptions := [("bus_button", ["a"])],
              clients := [("a", { id := "a", conn := some 1, lastMessageTime := 0,
                                  userAgent := "x" })],
              tracks := [], busButtonCount := 0 }
            { latitude := 0, longitude := 0 }).1)
          { latitude := 0, longitude := 0 }).1)
        { latitude := 0, longitude := 0 }).2) = 3 := by
  have h := c5_bus_button_counter_and_broadcasts (fun _ => some [9]) (fun _ _ => true)
    { subscriptions := [("bus_button", ["a"])],
      clients := [("a", { id := "a", conn := some 1, lastMessageTime := 0, userAgent := "x" })],
      tracks := [], busButtonCount := 0 }
    { latitude := 0, longitude := 0 } { latitude := 0, longitude := 0 }
    { latitude := 0, longitude := 0 } [9] [9] [9] _ _ _ _ _ _
    rfl rfl rfl rfl rfl rfl (by decide) (by decide) (by decide)
  exact ⟨h.2.2.1, h.2.2.2.2 "a" (by decide)⟩

/-- If one subscriber's write fails, the failure is logged inside the
fan-out loop. -/
theorem logError_mem_writeToSubscribers {c : String} {subs : List String} {b : Bytes}
    {writeOk : String → Bytes → Bool} (clients : List (String × fusionClient))
    (hreg : ∀ id ∈ subs, (mapLookup clients id).isSome)
    (hc : c ∈ subs) (hw : writeOk c b = false) :
    Event.logError "unable to write" ∈ writeToSubscribers writeOk clients b subs := by
  induction subs with
  | nil => cases hc
  | cons s rest ih =>
      have hs := hreg s (List.mem_cons_self s rest)
      rcases hml : mapLookup clients s with _ | cl
      · rw [hml] at hs
        cases hs
      · rcases List.mem_cons.mp hc with hcs | hcr
        · subst hcs
          simp [writeToSubscribers, hml, hw]
        · have hm := ih (fun i hi => hreg i (List.mem_cons_of_mem s hi)) hcr
          by_cases hwv : writeOk s b <;> simp [writeToSubscribers, hml, hwv, hm]

/-- C6: a marshal failure aborts the whole broadcast before any write is
attempted (the state is returned unchanged and the trace holds only the
marshal attempt and its error log), while a write failure to one
subscribed client is logged and does not prevent the write attempt to
every subscriber — each still receives exactly one write attempt. -/
theorem c6_marshal_abort_write_continue {α : Type} (marshal : α → Option Bytes)
    (writeOk : String → Bytes → Bool) (fm : fusionManager) (topic : String) (msg : α) :
    (marshal msg = none →
      processServerMessage marshal writeOk fm ⟨topic, msg⟩ =
        (fm, [Event.marshalAttempt, Event.logError "unable to marshal"])) ∧
    (∀ b, marshal msg = some b →
      (subsOf fm topic).Nodup →
      (∀ id ∈ subsOf fm topic, (mapLookup fm.clients id).isSome) →
      ∀ c ∈ subsOf fm topic, writeOk c b = false →
        Event.logError "unable to write" ∈
          (processServerMessage marshal writeOk fm ⟨topic, msg⟩).2 ∧
        (∀ id ∈ subsOf fm topic,
          countWrites id (processServerMessage marshal writeOk fm ⟨topic, msg⟩).2 = 1)) := by
  constructor
  · intro hnone
    simp [processServerMessage, hnone]
  · intro b hb hnd hreg c hc hw
    have htr : (processServerMessage marshal writeOk fm ⟨topic, msg⟩).2 =
        Event.marshalAttempt :: writeToSubscribers writeOk fm.clients b (subsOf fm topic) := by
      simp [processServerMessage, hb]
    rw [htr]
    constructor
    · exact List.mem_cons_of_mem _
        (logError_mem_writeToSubscribers fm.clients hreg hc hw)
    · intro id hid
      rw [countWrites_cons_marshal, countWrites_writeToSubscribers writeOk fm.clients b _ hreg]
      exact List.count_eq_one_of_mem hnd hid

/-- Witness for C6: both branches at concrete states — a failing marshal
leaves the state untouched, and a write failure to client `a` still
leaves one write attempt for both `a` and `b`. -/
theorem c6_marshal_abort_write_continue_witness :
    processServerMessage (fun _ : Nat => (none : Option Bytes)) (fun _ _ => true)
      { subscriptions := [("t", ["a", "b"])],
        clients := [("a", { id := "a", conn := some 1, lastMessageTime := 0, userAgent := "x" }),
                    ("b", { id := "b", conn := some 2, lastMessageTime := 0, userAgent := "y" })],
        tracks := [], busButtonCount := 0 } ⟨"t", 0⟩ =
      ({ subscriptions := [("t", ["a", "b"])],
         clients := [("a", { id := "a", conn := some 1, lastMessageTime := 0, userAgent := "x" }),
                     ("b", { id := "b", conn := some 2, lastMessageTime := 0, userAgent := "y" })],
         tracks := [], busButtonCount := 0 },
       [Event.marshalAttempt, Event.logError "unable to marshal"]) ∧
    Event.logError "unable to write" ∈
      (processServerMessage (fun _ : Nat => some [7]) (fun cid _ => cid ≠ "a")
        { subscriptions := [("t", ["a", "b"])],
          clients := [("a", { id := "a", conn := some 1, lastMessageTime := 0, userAgent := "x" }),
                      ("b", { id := "b", conn := some 2, lastMessageTime := 0, userAgent := "y" })],
          tracks := [], busButtonCount := 0 } ⟨"t", 0⟩).2 ∧
    countWrites "b" (processServerMessage (fun _ : Nat => some [7]) (fun cid _ => cid ≠ "a")
        { subscriptions := [("t", ["a", "b"])],
          clients := [("a", { id := "a", conn := some 1, lastMessageTime := 0, userAgent := "x" }),
                      ("b", { id := "b", conn := some 2, lastMessageTime := 0, userAgent := "y" })],
          tracks := [], busButtonCount := 0 } ⟨"t", 0⟩).2 = 1 := by
  have hfail := (c6_marshal_abort_write_continue (fun _ : Nat => (none : Option Bytes))
    (fun _ _ => true)
    { subscriptions := [("t", ["a", "b"])],
      clients := [("a", { id := "a", conn := some 1, lastMessageTime := 0, userAgent := "x" }),
                  ("b", { id := "b", conn := some 2, lastMessageTime := 0, userAgent := "y" })],
      tracks := [], busButtonCount := 0 } "t" 0).1 rfl
  have hcont := (c6_marshal_abort_write_continue (fun _ : Nat => some [7])
    (fun cid _ => cid ≠ "a")
    { subscriptions := [("t", ["a", "b"])],
      clients := [("a", { id := "a", conn := some 1, lastMessageTime := 0, userAgent := "x" }),
                  ("b", { id := "b", conn := some 2, lastMessageTime := 0, userAgent := "y" })],
      tracks := [], busButtonCount := 0 } "t" 0).2 [7] rfl (by decide) (by decide)
    "a" (by decide) (by decide)
  exact ⟨hfail, hcont.1, hcont.2 "b" (by decide)⟩

/-- C7: Unsubscribe for a client not present in the topic's list leaves
the whole state unchanged and only logs a warning (no error surfaces);
for a present client it removes exactly that one entry of that one
topic's list and nothing else. -/
theorem c7_unsubscribe_absent_noop_present_removes (fm : fusionManager)
    (id topic : String) :
    (id ∉ subsOf fm topic →
      handleMsgUnsubscribe fm id topic =
        (fm, [Event.logWarn "client requested unsubscribe from topic it's not subscribed to"])) ∧
    (id ∈ subsOf fm topic →
      (handleMsgUnsubscribe fm id topic).2 = [] ∧
      (handleMsgUnsubscribe fm id topic).1.clients = fm.clients ∧
      (handleMsgUnsubscribe fm id topic).1.tracks = fm.tracks ∧
      (handleMsgUnsubscribe fm id topic).1.busButtonCount = fm.busButtonCount ∧
      subsOf (handleMsgUnsubscribe fm id topic).1 topic = removeFirst id (subsOf fm topic) ∧
      (∀ t, topic ≠ t → subsOf (handleMsgUnsubscribe fm id topic).1 t = subsOf fm t) ∧
      (subsOf (handleMsgUnsubscribe fm id topic).1 topic).count id =
        (subsOf fm topic).count id - 1 ∧
      (∀ x, x ≠ id →
        (subsOf (handleMsgUnsubscribe fm id topic).1 topic).count x =
          (subsOf fm topic).count x)) := by
  constructor
  · intro h
    exact handleMsgUnsubscribe_of_not_mem h
  · intro h
    have hself : subsOf (handleMsgUnsubscribe fm id topic).1 topic =
        removeFirst id (subsOf fm topic) := by
      rw [subsOf_handleMsgUnsubscribe, if_pos h, if_pos rfl]
    refine ⟨?_, ?_, ?_, ?_, hself, fun t ht => ?_, ?_, fun x hx => ?_⟩
    · rw [handleMsgUnsubscribe_of_mem h]
    · rw [handleMsgUnsubscribe_of_mem h]
    · rw [handleMsgUnsubscribe_of_mem h]
    · rw [handleMsgUnsubscribe_of_mem h]
    · rw [subsOf_handleMsgUnsubscribe, if_pos h, if_neg ht]
    · rw [hself]
      exact count_removeFirst_self h
    · rw [hself]
      exact count_removeFirst_ne hx (subsOf fm topic)

/-- Witness for C7: both branches at a concrete state. -/
theorem c7_unsubscribe_absent_noop_present_removes_witness :
    handleMsgUnsubscribe
      { subscriptions := [("t", ["a", "b"])], clients := [], tracks := [],
        busButtonCount := 0 } "z" "t" =
      ({ subscriptions := [("t", ["a", "b"])], clients := [], tracks := [],
         busButtonCount := 0 },
       [Event.logWarn "client requested unsubscribe from topic it's not subscribed to"]) ∧
    (handleMsgUnsubscribe
      { subscriptions := [("t", ["a", "b"])], clients := [], tracks := [],
        busButtonCount := 0 } "a" "t").2 = [] ∧
    subsOf (handleMsgUnsubscribe
      { subscriptions := [("t", ["a", "b"])], clients := [], tracks := [],
        busButtonCount := 0 } "a" "t").1 "t" = removeFirst "a" ["a", "b"] := by
  have h1 := (c7_unsubscribe_absent_noop_present_removes
    { subscriptions := [("t", ["a", "b"])], clients := [], tracks := [],
      busButtonCount := 0 } "z" "t").1 (by decide)
  have h2 := (c7_unsubscribe_absent_noop_present_removes
    { subscriptions := [("t", ["a", "b"])], clients := [], tracks := [],
      busButtonCount := 0 } "a" "t").2 (by decide)
  exact ⟨h1, h2.1, h2.2.2.2.2.1⟩

/-- C8 counterexample: removal is NOT performed by swap-delete.  At the
subscriber list `["a", "b", "c"]`, unsubscribing `"a"` (index 0) yields
the splice result `["b", "c"]`, while swap-delete of index 0 would yield
`["c", "b"]`; the two disagree, so the claim that removal is performed
by swap-delete (and simultaneously preserves subscriber order) is false
on the code. -/
theorem c8_swap_delete_counterexample :
    subsOf (handleMsgUnsubscribe
      { subscriptions := [("t", ["a", "b", "c"])], clients := [], tracks := [],
        busButtonCount := 0 } "a" "t").1 "t" = ["b", "c"] ∧
    swapDelete ["a", "b", "c"] 0 = ["c", "b"] ∧
    subsOf (handleMsgUnsubscribe
      { subscriptions := [("t", ["a", "b", "c"])], clients := [], tracks := [],
        busButtonCount := 0 } "a" "t").1 "t" ≠ swapDelete ["a", "b", "c"] 0 := by
  refine ⟨by decide, by decide, by decide⟩

/-- C8 amended: a topic's subscriber list is maintained append-only on
subscribe, and removal of a subscriber (by Unsubscribe or
DeregisterClient) splices out the first matching entry, shifting later
entries down — not by swap-delete — so the order among the remaining
subscribers is preserved (the result is a sublist of the original). -/
theorem c8_append_only_splice_removal (fm : fusionManager) (id topic : String) :
    (id ∉ subsOf fm topic →
      subsOf (handleMsgSubscribe fm id topic) topic = subsOf fm topic ++ [id]) ∧
    (id ∈ subsOf fm topic → handleMsgSubscribe fm id topic = fm) ∧
    (id ∈ subsOf fm topic →
      subsOf (handleMsgUnsubscribe fm id topic).1 topic =
        removeFirst id (subsOf fm topic)) ∧
    subsOf (processRemoveClient fm id) topic = removeFirst id (subsOf fm topic) ∧
    (removeFirst id (subsOf fm topic)).Sublist (subsOf fm topic) := by
  refine ⟨fun h => ?_, fun h => handleMsgSubscribe_of_mem h, fun h => ?_,
    subsOf_processRemoveClient fm id topic, removeFirst_sublist id (subsOf fm topic)⟩
  · rw [subsOf_handleMsgSubscribe, if_neg h, if_pos rfl]
  · rw [subsOf_handleMsgUnsubscribe, if_pos h, if_pos rfl]

/-- Witness for C8 amended: append and splice-removal at a concrete
list. -/
theorem c8_append_only_splice_removal_witness :
    subsOf (handleMsgSubscribe
      { subscriptions := [("t", ["a", "b"])], clients := [], tracks := [],
        busButtonCount := 0 } "c" "t") "t" = ["a", "b", "c"] ∧
    subsOf (processRemoveClient
      { subscriptions := [("t", ["a", "b"])], clients := [], tracks := [],
        busButtonCount := 0 } "a") "t" = removeFirst "a" ["a", "b"] := by
  have h := c8_append_only_splice_removal
    { subscriptions := [("t", ["a", "b"])], clients := [], tracks := [],
      busButtonCount := 0 } "c" "t"
  have h2 := c8_append_only_splice_removal
    { subscriptions := [("t", ["a", "b"])], clients := [], tracks := [],
      busButtonCount := 0 } "a" "t"
  exact ⟨h.1 (by decide), h2.2.2.2.1⟩

theorem mem_of_mapLookup_some {β : Type} {m : List (String × β)} {k : String} {v : β}
    (h : mapLookup m k = some v) : (k, v) ∈ m := by
  induction m with
  | nil => cases h
  | cons p rest ih =>
      obtain ⟨a, b⟩ := p
      by_cases hak : a = k
      · subst hak
        simp [mapLookup] at h
        subst h
        exact List.mem_cons_self _ _
      · simp only [mapLookup, if_neg hak] at h
        exact List.mem_cons_of_mem _ (ih h)

/-- C9: the snapshot built for a SnapshotRequest excludes every client's
connection handle and includes each registered client's identifier,
last-message time and user agent, a copy of every track's full position
sequence, and the current bus-button count.  The snapshot is a value
assembled from copies, so later actor mutations — which produce new
states — cannot alter it. -/
theorem c9_snapshot_contents (fm : fusionManager) :
    (processDebug fm).busButtonCount = fm.busButtonCount ∧
    (∀ c ∈ (processDebug fm).clients, c.conn = none) ∧
    (processDebug fm).clients = fm.clients.map (fun p =>
      { id := p.2.id, conn := none, lastMessageTime := p.2.lastMessageTime,
        userAgent := p.2.userAgent }) ∧
    (processDebug fm).tracks = fm.tracks.map (fun p => p.2) ∧
    (∀ k cl, mapLookup fm.clients k = some cl →
      ({ id := cl.id, conn := none, lastMessageTime := cl.lastMessageTime,
         userAgent := cl.userAgent } : fusionClient) ∈ (processDebug fm).clients) ∧
    (∀ k tr, mapLookup fm.tracks k = some tr → tr ∈ (processDebug fm).tracks) := by
  refine ⟨rfl, ?_, rfl, rfl, fun k cl hk => ?_, fun k tr hk => ?_⟩
  · intro c hc
    rcases List.mem_map.mp hc with ⟨p, hp, rfl⟩
    rfl
  · exact List.mem_map_of_mem _ (mem_of_mapLookup_some hk)
  · exact List.mem_map_of_mem (fun p => p.2) (mem_of_mapLookup_some hk)

/-- Witness for C9 at a concrete one-client, one-track state. -/
theorem c9_snapshot_contents_witness :
    (∀ c ∈ (processDebug
      { subscriptions := [("t", ["a"])],
        clients := [("a", { id := "a", conn := some 1, lastMessageTime := 4, userAgent := "x" })],
        tracks := [("tr", [{ latitude := 1, longitude := 2, speed := none, heading := none,
                             track := "tr", time := 3 }])],
        busButtonCount := 7 }).clients, c.conn = none) ∧
    (processDebug
      { subscriptions := [("t", ["a"])],
        clients := [("a", { id := "a", conn := some 1, lastMessageTime := 4, userAgent := "x" })],
        tracks := [("tr", [{ latitude := 1, longitude := 2, speed := none, heading := none,
                             track := "tr", time := 3 }])],
        busButtonCount := 7 }).busButtonCount = 7 ∧
    ({ id := "a", conn := none, lastMessageTime := 4, userAgent := "x" } : fusionClient) ∈
      (processDebug
        { subscriptions := [("t", ["a"])],
          clients := [("a", { id := "a", conn := some 1, lastMessageTime := 4, userAgent := "x" })],
          tracks := [("tr", [{ latitude := 1, longitude := 2, speed := none, heading := none,
                               track := "tr", time := 3 }])],
          busButtonCount := 7 }).clients := by
  have h := c9_snapshot_contents
    { subscriptions := [("t", ["a"])],
      clients := [("a", { id := "a", conn := some 1, lastMessageTime := 4, userAgent := "x" })],
      tracks := [("tr", [{ latitude := 1, longitude := 2, speed := none, heading := none,
                           track := "tr", time := 3 }])],
      busButtonCount := 7 }
  exact ⟨h.2.1, h.1, h.2.2.2.2.1 "a" _ rfl⟩

/-- C10: in every reachable actor state, every client identifier in any
topic's subscriber list is a key of the client registry, and therefore a
broadcast's registry lookup for a subscribed identifier never yields a
missing client (the fan-out never reaches the nil-pointer dereference). -/
theorem c10_subscribed_implies_registered {fm : fusionManager} (hr : Reachable fm) :
    (∀ topic id, id ∈ subsOf fm topic → (mapLookup fm.clients id).isSome) ∧
    (∀ (α : Type) (marshal : α → Option Bytes) (writeOk : String → Bytes → Bool)
        (topic : String) (msg : α) (c : String),
      Event.panicNilClient c ∉ (processServerMessage marshal writeOk fm ⟨topic, msg⟩).2) := by
  obtain ⟨hnd, hreg⟩ := reachable_inv hr
  refine ⟨hreg, fun α marshal writeOk topic msg c => ?_⟩
  rcases hm : marshal msg with _ | b
  · simp [processServerMessage, hm]
  · have htr : (processServerMessage marshal writeOk fm ⟨topic, msg⟩).2 =
        Event.marshalAttempt :: writeToSubscribers writeOk fm.clients b (subsOf fm topic) := by
      simp [processServerMessage, hm]
    rw [htr]
    intro hmem
    rcases List.mem_cons.mp hmem with h | h
    · exact Event.noConfusion h
    · exact panic_not_mem_writeToSubscribers writeOk fm.clients b (hreg topic) c h

/-- Witness for C10: a client registered and then subscribed from the
initial state is found by the broadcast lookup, and the fan-out panics
for no identifier. -/
theorem c10_subscribed_implies_registered_witness :
    (mapLookup (handleMsgSubscribe
      (processAddClient initialFusionManager
        { id := "c1", conn := some 1, lastMessageTime := 0, userAgent := "u" })
      "c1" "t").clients "c1").isSome ∧
    Event.panicNilClient "c1" ∉
      (processServerMessage (fun _ : Nat => some [7]) (fun _ _ => true)
        (handleMsgSubscribe
          (processAddClient initialFusionManager
            { id := "c1", conn := some 1, lastMessageTime := 0, userAgent := "u" })
          "c1" "t") ⟨"t", 0⟩).2 := by
  have hre : Reachable (handleMsgSubscribe
      (processAddClient initialFusionManager
        { id := "c1", conn := some 1, lastMessageTime := 0, userAgent := "u" })
      "c1" "t") :=
    Reachable.step
      (Reachable.step Reachable.init
        (Step.addClient { id := "c1", conn := some 1, lastMessageTime := 0, userAgent := "u" }))
      (Step.subscribe "c1" "t" (by decide))
  have h := c10_subscribed_implies_registered hre
  exact ⟨h.1 "t" "c1" (by decide), h.2 Nat (fun _ => some [7]) (fun _ _ => true) "t" 0 "c1"⟩

end ShuttleFusion
